import Mathlib

/-!
# Verification of the peerpoker game engine against its specification

Shallow embedding of the repository's core subsystems, translated from the
Go sources:

* `internal/deck/evaluator.go`, `internal/deck/deck.go` — cards and the
  7-choose-5 hand evaluator;
* `internal/crypto/mental_poker.go` — the SRA-style commutative cipher;
* `internal/crypto/shuffle.go` — the Fisher–Yates shuffle;
* `internal/game/game.go`, `internal/game/betting.go`,
  `internal/game/showdown.go` and the player-management / side-pot files —
  the betting state machine;
* the disconnect handler's penalty pathway.

Chip amounts are Go `int` values, embedded as `Int` (with `Int.tdiv` /
`Int.tmod` for Go's truncating `/` and `%`).  Hand-rank keys are Go `int32`
values; every key produced by the evaluator is below `10^7`, far from the
`int32` range, so they are embedded as `Nat`.
-/

namespace Poker

/-! ## Cards (`internal/deck/deck.go`) -/

/-- `Suit` from deck.go (`Hearts = 0`, `Diamonds`, `Clubs`, `Spades`). -/
inductive Suit where
  | hearts
  | diamonds
  | clubs
  | spades
deriving DecidableEq, Repr

/-- The numeric index of a suit (Go's `iota` value). -/
def Suit.index : Suit → Nat
  | .hearts => 0
  | .diamonds => 1
  | .clubs => 2
  | .spades => 3

/-- `Card` from deck.go: a suit and a value in `2..14` (14 = Ace). -/
structure Card where
  suit : Suit
  value : Nat
deriving DecidableEq, Repr

/-- `Card.ToByte`: `(value-2)*4 + suit`. -/
def Card.toByte (c : Card) : Nat := (c.value - 2) * 4 + c.suit.index

/-- `Card.ToBytes`: the one-byte slice used as the cipher plaintext. -/
def Card.toBytes (c : Card) : List Nat := [c.toByte]

/-! ## Hand evaluator (`internal/deck/evaluator.go`) -/

/-- `HandRank` from evaluator.go (`iota` order). -/
inductive HandRank where
  | highCard
  | onePair
  | twoPair
  | threeOfAKind
  | straight
  | flush
  | fullHouse
  | fourOfAKind
  | straightFlush
  | royalFlush
deriving DecidableEq, Repr

/-- The `iota` value of a `HandRank`. -/
def HandRank.val : HandRank → Nat
  | .highCard => 0
  | .onePair => 1
  | .twoPair => 2
  | .threeOfAKind => 3
  | .straight => 4
  | .flush => 5
  | .fullHouse => 6
  | .fourOfAKind => 7
  | .straightFlush => 8
  | .royalFlush => 9

/-- `checkStraight` on the five card values sorted descending.  The wheel
check (`A-2-3-4-5`) is only performed when the first gap occurs at `i = 0`,
exactly as in the Go loop. -/
def checkStraight5 (a b c d e : Nat) : Bool × Nat :=
  if a - b ≠ 1 then
    if a = 14 ∧ b = 5 ∧ c = 4 ∧ d = 3 ∧ e = 2 then (true, 5) else (false, 0)
  else if b - c ≠ 1 then (false, 0)
  else if c - d ≠ 1 then (false, 0)
  else if d - e ≠ 1 then (false, 0)
  else (true, a)

/-- `getValueCounts`: distinct values with multiplicities, sorted by count
descending then value descending.  (Go builds the pairs from a map and then
sorts; the sort key `(count, value)` is total on the pairs, so the result
does not depend on the map's iteration order.) -/
def getValueCounts (vals : List Nat) : List (Nat × Nat) :=
  List.insertionSort
    (fun x y => x.2 > y.2 ∨ (x.2 = y.2 ∧ x.1 ≥ y.1))
    (vals.dedup.map (fun v => (v, vals.count v)))

/-- `evaluateFiveCardHand` applied to the five cards already sorted by value
descending (the Go function sorts first; see `evaluateFiveCardHand`). -/
def evaluateSorted5 (a b c d e : Card) : Nat × String :=
  let isFlush := b.suit = a.suit ∧ c.suit = a.suit ∧ d.suit = a.suit ∧ e.suit = a.suit
  let st := checkStraight5 a.value b.value c.value d.value e.value
  let isStraight := st.1
  let straightHigh := st.2
  let counts := getValueCounts [a.value, b.value, c.value, d.value, e.value]
  let c0 := counts.getD 0 (0, 0)
  let c1 := counts.getD 1 (0, 0)
  let c2 := counts.getD 2 (0, 0)
  let c3 := counts.getD 3 (0, 0)
  if isFlush ∧ isStraight ∧ straightHigh = 14 then
    (HandRank.val .royalFlush * 1000000 + straightHigh, "Royal Flush")
  else if isFlush ∧ isStraight then
    (HandRank.val .straightFlush * 1000000 + straightHigh, "Straight Flush")
  else if c0.2 = 4 then
    (HandRank.val .fourOfAKind * 1000000 + c0.1 * 1000 + c1.1, "Four of a Kind")
  else if c0.2 = 3 ∧ c1.2 = 2 then
    (HandRank.val .fullHouse * 1000000 + c0.1 * 1000 + c1.1, "Full House")
  else if isFlush then
    (HandRank.val .flush * 1000000 +
      a.value * (1000 / 1) + b.value * (1000 / 2) + c.value * (1000 / 3) +
      d.value * (1000 / 4) + e.value * (1000 / 5), "Flush")
  else if isStraight then
    (HandRank.val .straight * 1000000 + straightHigh, "Straight")
  else if c0.2 = 3 then
    (HandRank.val .threeOfAKind * 1000000 + c0.1 * 1000 + c1.1 * 10 + c2.1,
      "Three of a Kind")
  else if c0.2 = 2 ∧ c1.2 = 2 then
    (HandRank.val .twoPair * 1000000 + c0.1 * 1000 + c1.1 * 10 + c2.1, "Two Pair")
  else if c0.2 = 2 then
    (HandRank.val .onePair * 1000000 + c0.1 * 1000 + c1.1 * 100 + c2.1 * 10 + c3.1,
      "One Pair")
  else
    (HandRank.val .highCard * 1000000 +
      a.value * (10000 / 1) + b.value * (10000 / 2) + c.value * (10000 / 3) +
      d.value * (10000 / 4) + e.value * (10000 / 5), "High Card")

/-- `evaluateFiveCardHand`: length guard, sort by value descending, then the
category cascade. -/
def evaluateFiveCardHand (cards : List Card) : Nat × String :=
  if cards.length ≠ 5 then (999999, "Invalid Hand")
  else
    match List.insertionSort (fun x y : Card => x.value ≥ y.value) cards with
    | [a, b, c, d, e] => evaluateSorted5 a b c d e
    | _ => (999999, "Invalid Hand")

/-- `generateCombinations cards size`: all size-element subsets, in the order
produced by the Go recursion (take the head first, then skip it). -/
def generateCombinations : Nat → List Card → List (List Card)
  | 0, _ => [[]]
  | _ + 1, [] => []
  | k + 1, x :: xs =>
      (generateCombinations k xs).map (x :: ·) ++ generateCombinations (k + 1) xs

/-- `EvaluateBestHand`: evaluate every 5-card combination and keep the one
with the strictly smallest key, starting from `(999999, "High Card")`. -/
def EvaluateBestHand (holeCards communityCards : List Card) : Nat × String :=
  let allCards := holeCards ++ communityCards
  if allCards.length < 5 then (999999, "Invalid Hand")
  else
    (generateCombinations 5 allCards).foldl
      (fun best combo =>
        let r := evaluateFiveCardHand combo
        if r.1 < best.1 then r else best)
      (999999, "High Card")

/-! ## Commutative cipher (`internal/crypto/mental_poker.go`)

`big.Int.SetBytes` reads a big-endian byte slice; `big.Int.Bytes` writes the
minimal big-endian representation (the empty slice for zero).  Bytes are
embedded as `Nat` values below 256. -/

/-- `big.Int.SetBytes`: big-endian bytes to a natural number. -/
def natOfBytes (data : List Nat) : Nat :=
  data.foldl (fun acc b => acc * 256 + b) 0

/-- `big.Int.Bytes`: minimal big-endian representation; zero gives `[]`. -/
def bytesOfNat (n : Nat) : List Nat :=
  if h : n = 0 then []
  else bytesOfNat (n / 256) ++ [n % 256]
decreasing_by exact Nat.div_lt_self (Nat.pos_of_ne_zero h) (by omega)

/-- `CardKeys` from mental_poker.go. -/
structure CardKeys where
  encKey : Nat
  decKey : Nat
  prime : Nat
deriving DecidableEq, Repr

/-- The modular exponentiation inside `Encrypt`: `plaintext^encKey mod prime`. -/
def CardKeys.encryptNat (ck : CardKeys) (m : Nat) : Nat :=
  m ^ ck.encKey % ck.prime

/-- The modular exponentiation inside `Decrypt`: `ciphertext^decKey mod prime`. -/
def CardKeys.decryptNat (ck : CardKeys) (c : Nat) : Nat :=
  c ^ ck.decKey % ck.prime

/-- `CardKeys.Encrypt`: bytes → big.Int → `m^e mod p` → bytes. -/
def CardKeys.encrypt (ck : CardKeys) (data : List Nat) : List Nat :=
  bytesOfNat (ck.encryptNat (natOfBytes data))

/-- `CardKeys.Decrypt`: bytes → big.Int → `c^d mod p` → bytes. -/
def CardKeys.decrypt (ck : CardKeys) (data : List Nat) : List Nat :=
  bytesOfNat (ck.decryptNat (natOfBytes data))

/-- `CardKeys.Validate`'s arithmetic condition: `e·d ≡ 1 (mod p−1)`. -/
def CardKeys.validPair (ck : CardKeys) : Prop :=
  ck.encKey * ck.decKey % (ck.prime - 1) = 1

instance (ck : CardKeys) : Decidable ck.validPair :=
  inferInstanceAs (Decidable (ck.encKey * ck.decKey % (ck.prime - 1) = 1))

/-! ## Fisher–Yates shuffle (`internal/crypto/shuffle.go`)

`ShuffleDeck` walks `i` from `n−1` down to `1`; at each step it draws a
random `j ∈ [0, i]` (`crypto/rand`) and swaps slots `i` and `j`, skipping
the swap when the draw fails.  The draws are modelled by an oracle
`draws : Nat → Option Nat` (`none` is the error branch); `rand.Int`
guarantees `j ≤ i`, but the permutation property below holds for every
oracle, so no range hypothesis is needed. -/

/-- The parallel assignment `l[i], l[j] = l[j], l[i]` (a no-op when an index
is out of range, which `rand.Int`'s contract rules out in the Go code). -/
def listSwap (l : List (List Nat)) (i j : Nat) : List (List Nat) :=
  if i < l.length ∧ j < l.length then
    (l.set i (l.getD j [])).set j (l.getD i [])
  else l

/-- The loop of `ShuffleDeck` over a list of descending indices. -/
def shuffleAux (draws : Nat → Option Nat) : List Nat → List (List Nat) → List (List Nat)
  | [], shuffled => shuffled
  | i :: rest, shuffled =>
      match draws i with
      | none => shuffleAux draws rest shuffled
      | some j => shuffleAux draws rest (listSwap shuffled i j)

/-- The index sequence `n−1, n−2, …, 1` of the Go `for` loop. -/
def downIndices (n : Nat) : List Nat :=
  ((List.range n).reverse).dropLast

/-- `ShuffleDeck`: copy the deck and run the swap loop. -/
def ShuffleDeck (deck : List (List Nat)) (draws : Nat → Option Nat) : List (List Nat) :=
  shuffleAux draws (downIndices deck.length) deck

/-! ## Betting state machine

Translated from the non-blockchain revision of the engine, which is the one
the betting/turn claims cite: `game.go` (state, rotation helpers),
`betting.go` (round advancement with the stub street dealers and
`ResolveWinner`), `showdown.go` (`HandlePlayerAction`, `getValidActions`),
the player-management file (`AddPlayer`, `SetPlayerReady`, `StartNewHand`,
`postBlinds`, `updatePlayerState`) and the side-pot file
(`calculateSidePots`, `distributePot`).

Go's `map[string]*PlayerState` is embedded as an association list in
insertion order; every observable proved below (lookups, counts, sums,
membership of eligibility lists) is independent of Go's unspecified map
iteration order.  The networking calls (`sendToPlayers`, logging) carry no
game state and are elided.  The card/crypto fields of `Game` (`deckKeys`,
`currentDeck`, `myHand`, `revealedKeys`, …) feed none of the betting logic
modelled here and are elided; `InitiateShuffleAndDeal` is the stub of this
revision, which mutates none of the modelled fields. -/

/-- `GameStatus` from betting.go (`iota` order). -/
inductive GameStatus where
  | waiting
  | dealing
  | preFlop
  | flop
  | turn
  | river
  | showdown
deriving DecidableEq, Repr

/-- `PlayerAction` from showdown.go (`iota` order). -/
inductive PlayerAction where
  | fold
  | check
  | call
  | bet
  | raise
deriving DecidableEq, Repr

/-- `ParsePlayerAction`; the error branch is `none`. -/
def parsePlayerAction : String → Option PlayerAction
  | "fold" => some .fold
  | "check" => some .check
  | "call" => some .call
  | "bet" => some .bet
  | "raise" => some .raise
  | _ => none

/-- `PlayerState` from the player-management file.  Rotation ids are dense
indices assigned from `nextRotationID`, hence `Nat`. -/
structure PlayerState where
  listenAddr : String
  rotationID : Nat
  isReady : Bool
  isActive : Bool
  isFolded : Bool
  currentRoundBet : Int
  isAllIn : Bool
  stack : Int
  totalBetThisHand : Int
deriving DecidableEq, Repr

/-- `SidePot` from game.go. -/
structure SidePot where
  amount : Int
  cap : Int
  eligiblePlayers : List String
deriving DecidableEq, Repr

/-- The betting-relevant fields of `Game`. -/
structure GState where
  playerStates : List (String × PlayerState)
  rotationMap : List (Nat × String)
  nextRotationID : Nat
  currentDealerID : Nat
  currentPlayerTurn : Nat
  currentStatus : GameStatus
  currentPot : Int
  highestBet : Int
  lastRaiserID : Nat
  lastRaiseAmount : Int
  communityCards : List Card
deriving DecidableEq, Repr

/-- `SmallBlind` constant. -/
def SmallBlind : Int := 10

/-- `BigBlind` constant. -/
def BigBlind : Int := 20

/-- `NewGame`'s zero-valued betting state. -/
def newGame : GState :=
  { playerStates := [], rotationMap := [], nextRotationID := 0,
    currentDealerID := 0, currentPlayerTurn := 0, currentStatus := .waiting,
    currentPot := 0, highestBet := 0, lastRaiserID := 0, lastRaiseAmount := 0,
    communityCards := [] }

/-- Lookup in `playerStates` (first entry with the key, like a Go map whose
keys are unique). -/
def findPlayer : List (String × PlayerState) → String → Option PlayerState
  | [], _ => none
  | p :: rest, k => if p.1 = k then some p.2 else findPlayer rest k

/-- In-place update of one player's record (`g.playerStates[addr].field = …`
through the stored pointer). -/
def setPlayer (l : List (String × PlayerState)) (k : String)
    (f : PlayerState → PlayerState) : List (String × PlayerState) :=
  l.map (fun p => if p.1 = k then (p.1, f p.2) else p)

/-- Lookup in a rotation map. -/
def rotationFind : List (Nat × String) → Nat → Option String
  | [], _ => none
  | p :: rest, k => if p.1 = k then some p.2 else rotationFind rest k

/-- Lookup in `rotationMap`. -/
def rotationLookup (g : GState) (id : Nat) : Option String :=
  rotationFind g.rotationMap id

/-- `getReadyPlayers` (list order in place of Go's map order). -/
def getReadyPlayers (g : GState) : List String :=
  (g.playerStates.filter (fun p => p.2.isReady)).map (·.1)

/-- `getReadyActivePlayers` (list order in place of Go's map order). -/
def getReadyActivePlayers (g : GState) : List String :=
  (g.playerStates.filter (fun p => p.2.isReady && p.2.isActive)).map (·.1)

/-- `getNextPlayerID`: the next seat in rotation. -/
def getNextPlayerID (g : GState) (currentID : Nat) : Nat :=
  if g.nextRotationID = 0 then 0 else (currentID + 1) % g.nextRotationID

/-- The loop of `getNextActivePlayerID`.  The Go loop terminates within
`nextRotationID` steps whenever `nextRotationID ≥ 1` (the candidate seat
cycles back to `currentID`); the fuel `nextRotationID + 1` makes the
recursion structural without changing that behaviour. -/
def getNextActivePlayerIDAux (g : GState) (currentID : Nat) :
    Nat → Nat → Nat
  | _, 0 => currentID
  | startID, fuel + 1 =>
      let nextID := getNextPlayerID g startID
      let step :=
        if nextID = currentID then currentID
        else getNextActivePlayerIDAux g currentID nextID fuel
      match rotationLookup g nextID with
      | some addr =>
          match findPlayer g.playerStates addr with
          | some st => if st.isActive && !st.isFolded then nextID else step
          | none => step
      | none => step

/-- `getNextActivePlayerID`: next seat that is `IsActive && !IsFolded`
(all-in seats are *not* excluded), falling back to `currentID`. -/
def getNextActivePlayerID (g : GState) (currentID : Nat) : Nat :=
  getNextActivePlayerIDAux g currentID currentID (g.nextRotationID + 1)

/-- The loop of `advanceDealer` (same fuel argument as above; the dealer is
left unchanged when no active seat is found). -/
def advanceDealerAux (g : GState) : Nat → Nat → GState
  | _, 0 => g
  | startID, fuel + 1 =>
      let nextID := (startID + 1) % g.nextRotationID
      let step :=
        if nextID = g.currentDealerID then g
        else advanceDealerAux g nextID fuel
      match rotationLookup g nextID with
      | some addr =>
          match findPlayer g.playerStates addr with
          | some st => if st.isActive then { g with currentDealerID := nextID } else step
          | none => step
      | none => step

/-- `advanceDealer`. -/
def advanceDealer (g : GState) : GState :=
  if g.nextRotationID = 0 then g
  else advanceDealerAux g g.currentDealerID (g.nextRotationID + 1)

/-- `updatePlayerState`: apply an action's chip movements for one player.
(The Go function dereferences `g.playerStates[addr]`; callers guarantee the
player exists, and a missing player leaves the state unchanged here.) -/
def updatePlayerState (g : GState) (addr : String) (action : PlayerAction)
    (value : Int) : GState :=
  match findPlayer g.playerStates addr with
  | none => g
  | some st =>
    match action with
    | .fold =>
        let states := setPlayer g.playerStates addr (fun s => { s with isFolded := true })
        { g with playerStates := states }
    | .bet | .raise =>
        let actualBet := if value > st.stack then st.stack else value
        let allIn := if value > st.stack then true else st.isAllIn
        let amountToAdd := actualBet - st.currentRoundBet
        let upd := fun (s : PlayerState) =>
          { s with
            currentRoundBet := actualBet,
            totalBetThisHand := s.totalBetThisHand + amountToAdd,
            stack := s.stack - amountToAdd,
            isAllIn := allIn }
        let g1 :=
          { g with
            playerStates := setPlayer g.playerStates addr upd,
            currentPot := g.currentPot + amountToAdd }
        if actualBet > g.highestBet then
          { g1 with highestBet := actualBet, lastRaiserID := st.rotationID }
        else g1
    | .call =>
        let amountNeeded := g.highestBet - st.currentRoundBet
        let actualCall := if amountNeeded > st.stack then st.stack else amountNeeded
        let allIn := if amountNeeded > st.stack then true else st.isAllIn
        let upd := fun (s : PlayerState) =>
          { s with
            currentRoundBet := s.currentRoundBet + actualCall,
            totalBetThisHand := s.totalBetThisHand + actualCall,
            stack := s.stack - actualCall,
            isAllIn := allIn }
        { g with
          playerStates := setPlayer g.playerStates addr upd,
          currentPot := g.currentPot + actualCall }
    | .check => g

/-- `setStatus`. -/
def setStatus (g : GState) (s : GameStatus) : GState :=
  { g with currentStatus := s }

/-- The loop of `incNextPlayer` with its exact bound
`maxAttempts = nextRotationID + 1`; when no seat qualifies, the turn is left
unchanged (the Go code just logs a warning). -/
def incNextPlayerAux (g : GState) : Nat → Nat → GState
  | _, 0 => g
  | startID, fuel + 1 =>
      let nextID := getNextPlayerID g startID
      let found :=
        match rotationLookup g nextID with
        | some addr =>
            match findPlayer g.playerStates addr with
            | some st => st.isActive && !st.isFolded && !st.isAllIn
            | none => false
        | none => false
      if found then { g with currentPlayerTurn := nextID }
      else incNextPlayerAux g nextID fuel

/-- `incNextPlayer`. -/
def incNextPlayer (g : GState) : GState :=
  incNextPlayerAux g g.currentPlayerTurn (g.nextRotationID + 1)

/-- `checkRoundEnd`.  The Go function computes the all-matched predicate
twice with the same body; both occurrences use the single `allMatched`
here. -/
def checkRoundEnd (g : GState) : Bool :=
  let activeNonFolded :=
    (g.playerStates.filter (fun p => p.2.isActive && !p.2.isFolded)).length
  let canAct :=
    (g.playerStates.filter
      (fun p => p.2.isActive && !p.2.isFolded && !p.2.isAllIn)).length
  if activeNonFolded ≤ 1 then true
  else if canAct = 0 then true
  else
    let allMatched := g.playerStates.all
      (fun p => !(p.2.isActive && !p.2.isFolded && !p.2.isAllIn) ||
        decide (g.highestBet ≤ p.2.currentRoundBet))
    if canAct = 1 && allMatched then true
    else if allMatched &&
        decide (g.currentPlayerTurn = getNextActivePlayerID g g.lastRaiserID) then
      true
    else false

/-- `calculateSidePots`' pot-building loop: one pot per contribution level
above the running cap, with every later contributor eligible. -/
def buildPots : Int → List (String × Int) → List SidePot
  | _, [] => []
  | previousCap, c :: rest =>
      if c.2 ≤ previousCap then buildPots previousCap rest
      else
        let cap := c.2
        let eligible := (c :: rest).map (·.1)
        let potAmount := (cap - previousCap) * ((rest.length : Int) + 1)
        (if potAmount > 0 then [⟨potAmount, cap, eligible⟩] else []) ++
          buildPots cap rest

/-- The contribution-sorting relation of `calculateSidePots`. -/
def byAmount (a b : String × Int) : Prop := a.2 ≤ b.2

instance : DecidableRel byAmount := fun a b => inferInstanceAs (Decidable (a.2 ≤ b.2))

/-- `calculateSidePots`: contributions of active players with a positive
`TotalBetThisHand` (folded players are *not* filtered out), sorted
ascending, then one pot per level. -/
def calculateSidePots (g : GState) : List SidePot :=
  let contributions :=
    (g.playerStates.filter
      (fun p => p.2.isActive && decide (p.2.totalBetThisHand > 0))).map
      (fun p => (p.1, p.2.totalBetThisHand))
  buildPots 0 (List.insertionSort byAmount contributions)

/-- Credit chips to one player's stack. -/
def addStack (g : GState) (addr : String) (amount : Int) : GState :=
  let states := setPlayer g.playerStates addr (fun s => { s with stack := s.stack + amount })
  { g with playerStates := states }

/-- `distributePot`: integer share per winner, remainder to the first
winner in the list. -/
def distributePot (g : GState) (amount : Int) (winners : List String) : GState :=
  match winners with
  | [] => g
  | _ =>
    let share := Int.tdiv amount (winners.length : Int)
    let remainder := Int.tmod amount (winners.length : Int)
    (winners.enum).foldl
      (fun acc wi =>
        addStack acc wi.2 (if wi.1 = 0 then share + remainder else share))
      g

/-- `resetHandState` (betting.go): clear the hand, deactivate busted
players, return to `Waiting`. -/
def resetHandState (g : GState) : GState :=
  let g1 :=
    { g with
      currentPot := 0,
      highestBet := 0,
      lastRaiseAmount := BigBlind,
      communityCards := [] }
  let states := g1.playerStates.map
    (fun p => if p.2.stack ≤ 0 then (p.1, { p.2 with isActive := false }) else p)
  setStatus { g1 with playerStates := states } .waiting

/-- The winner fold of `ResolveWinner`: among the given `(addr, rank)`
pairs, keep every pair matching the strictly smallest rank seen so far,
starting from `999999`. -/
def pickWinners (hands : List (String × Nat)) : List String :=
  (hands.foldl
    (fun acc h =>
      if h.2 < acc.1 then (h.2, [h.1])
      else if h.2 = acc.1 then (acc.1, acc.2 ++ [h.1])
      else acc)
    ((999999 : Nat), ([] : List String))).2

/-- `ResolveWinner` (betting.go revision): walkover for a sole non-folded
player, otherwise evaluate hands (this revision passes a placeholder empty
hole hand), compute side pots and distribute each to its minimal-rank
eligible players. -/
def resolveWinner (g : GState) : GState :=
  let nonFolded :=
    (getReadyActivePlayers g).filter
      (fun a => match findPlayer g.playerStates a with
        | some st => !st.isFolded
        | none => false)
  match nonFolded with
  | [winner] => resetHandState (addStack g winner g.currentPot)
  | _ =>
    let playerHands :=
      nonFolded.map (fun a => (a, (EvaluateBestHand [] g.communityCards).1))
    let sidePots := calculateSidePots g
    if sidePots.length > 0 then
      sidePots.foldl
        (fun acc pot =>
          let eligibleHands :=
            playerHands.filter (fun ph => pot.eligiblePlayers.contains ph.1)
          let winners := pickWinners eligibleHands
          if winners.length > 0 then distributePot acc pot.amount winners else acc)
        g
    else
      let winners := pickWinners playerHands
      if winners.length > 0 then distributePot g g.currentPot winners else g

/-- `dealFlop` of the cited revision: no cards are dealt (TODO stub); the
turn moves to the next active non-folded seat after the dealer. -/
def dealFlop (g : GState) : GState :=
  { g with currentPlayerTurn := getNextActivePlayerID g g.currentDealerID }

/-- `dealTurn` (same body as `dealFlop`). -/
def dealTurn (g : GState) : GState :=
  { g with currentPlayerTurn := getNextActivePlayerID g g.currentDealerID }

/-- `dealRiver` (same body as `dealFlop`). -/
def dealRiver (g : GState) : GState :=
  { g with currentPlayerTurn := getNextActivePlayerID g g.currentDealerID }

/-- `advanceToNextRound`: reset the round bets and the table's highest bet,
then advance one street. -/
def advanceToNextRound (g : GState) : GState :=
  let states := g.playerStates.map (fun p => (p.1, { p.2 with currentRoundBet := 0 }))
  let g1 := { g with playerStates := states, highestBet := 0 }
  match g1.currentStatus with
  | .dealing => setStatus g1 .preFlop
  | .preFlop => dealFlop (setStatus g1 .flop)
  | .flop => dealTurn (setStatus g1 .turn)
  | .turn => dealRiver (setStatus g1 .river)
  | .river => resolveWinner (setStatus g1 .showdown)
  | .showdown => resetHandState g1
  | .waiting => g1

/-- `advanceTurnAndCheckRoundEnd`. -/
def advanceTurnAndCheckRoundEnd (g : GState) : GState :=
  if checkRoundEnd g then advanceToNextRound g
  else
    let g1 := incNextPlayer g
    if checkRoundEnd g1 then advanceToNextRound g1 else g1

/-- `getValidActions`. -/
def getValidActions (g : GState) (clientID : String) : List PlayerAction :=
  match findPlayer g.playerStates clientID with
  | none => []
  | some st =>
    let checkPart :=
      if g.highestBet = 0 ∨ st.currentRoundBet = g.highestBet then
        [PlayerAction.check] else []
    let callPart :=
      if g.highestBet > st.currentRoundBet ∧ st.stack > 0 then
        [PlayerAction.call] else []
    let minRaise := if g.highestBet = 0 then BigBlind
      else g.highestBet + g.lastRaiseAmount
    let raisePart :=
      if st.stack > minRaise - st.currentRoundBet then
        [if g.highestBet = 0 then PlayerAction.bet else PlayerAction.raise]
      else []
    [PlayerAction.fold] ++ checkPart ++ callPart ++ raisePart

/-- `HandlePlayerAction`.  Returns the mutated state paired with the error,
mirroring the Go method that mutates `g` in place and returns `error`; every
rejection happens before any mutation, so rejecting branches return the
input state.  The fold branch broadcasts this player's keys (no game-state
effect) and marks the player folded before `updatePlayerState` runs. -/
def handlePlayerAction (g : GState) (clientID actionStr : String)
    (value : Int) : GState × Option String :=
  match parsePlayerAction actionStr with
  | none => (g, some "invalid action string")
  | some action =>
    match findPlayer g.playerStates clientID with
    | none => (g, some "player not found")
    | some myState =>
      if myState.rotationID ≠ g.currentPlayerTurn then
        (g, some "it is not your turn")
      else if ¬ (getValidActions g clientID).contains action then
        (g, some "invalid action")
      else
        let checked : GState × Option String :=
          match action with
          | .bet =>
              if value < BigBlind then (g, some "bet below big blind")
              else if value > myState.stack then (g, some "bet exceeds stack")
              else ({ g with lastRaiseAmount := value }, none)
          | .raise =>
              let minRaise := g.highestBet + g.lastRaiseAmount
              if value < minRaise then (g, some "raise below minimum")
              else if value > myState.stack then (g, some "raise exceeds stack")
              else ({ g with lastRaiseAmount := value - g.highestBet }, none)
          | _ => (g, none)
        match checked with
        | (_, some e) => (g, some e)
        | (g1, none) =>
          let g2 :=
            if action = .fold then
              let states := setPlayer g1.playerStates clientID
                (fun s => { s with isFolded := true })
              { g1 with playerStates := states }
            else g1
          let g3 := updatePlayerState g2 clientID action value
          (advanceTurnAndCheckRoundEnd g3, none)

/-- `postBlinds`. -/
def postBlinds (g : GState) : GState :=
  let updateByRotation := fun (g : GState) (id : Nat) (value : Int) =>
    match rotationLookup g id with
    | some addr => updatePlayerState g addr .bet value
    | none => g
  let activeCount := (getReadyActivePlayers g).length
  let g1 :=
    if activeCount = 2 then
      let sbID := g.currentDealerID
      let ga := updateByRotation g sbID SmallBlind
      let bbID := getNextPlayerID ga sbID
      let gb := updateByRotation ga bbID BigBlind
      { gb with currentPlayerTurn := sbID, lastRaiserID := bbID }
    else
      let sbID := getNextActivePlayerID g g.currentDealerID
      let ga := updateByRotation g sbID SmallBlind
      let bbID := getNextActivePlayerID ga sbID
      let gb := updateByRotation ga bbID BigBlind
      { gb with
        currentPlayerTurn := getNextActivePlayerID gb bbID,
        lastRaiserID := bbID }
  { g1 with lastRaiseAmount := BigBlind }

/-- Lexicographic comparison of code-point sequences. -/
def codeListLe : List Nat → List Nat → Bool
  | [], _ => true
  | _ :: _, [] => false
  | x :: xs, y :: ys => if x < y then true else if y < x then false else codeListLe xs ys

/-- The order of Go's `sort.Strings`: byte-lexicographic, which on UTF-8
strings coincides with code-point-lexicographic order. -/
def strLe (a b : String) : Bool :=
  codeListLe (a.data.map Char.toNat) (b.data.map Char.toNat)

/-- The rotation-assignment loop of `StartNewHand`. -/
def assignRotations : GState → List String → GState
  | g, [] => g
  | g, addr :: rest =>
      let states := setPlayer g.playerStates addr
        (fun s =>
          { s with
            rotationID := g.nextRotationID,
            isFolded := false,
            currentRoundBet := 0,
            totalBetThisHand := 0,
            isAllIn := false })
      assignRotations
        { g with
          playerStates := states,
          rotationMap := g.rotationMap ++ [(g.nextRotationID, addr)],
          nextRotationID := g.nextRotationID + 1 }
        rest

/-- `StartNewHand`: reset the hand, assign rotation ids in sorted-address
order, advance the dealer, post blinds, enter `Dealing`.  This revision's
`InitiateShuffleAndDeal` is a TODO stub mutating none of the modelled
fields. -/
def startNewHand (g : GState) : GState :=
  let activeReadyPlayers :=
    List.insertionSort (fun a b => strLe a b = true) (getReadyActivePlayers g)
  if activeReadyPlayers.length < 2 then setStatus g .waiting
  else
    let g1 :=
      { g with
        rotationMap := [],
        nextRotationID := 0,
        communityCards := [],
        lastRaiseAmount := BigBlind,
        currentPot := 0,
        highestBet := 0 }
    let g2 := assignRotations g1 activeReadyPlayers
    let g3 := advanceDealer g2
    let g4 := postBlinds g3
    setStatus g4 .dealing

/-- `AddPlayer`: a known address is only reactivated; a new address starts
with the default 1000 stack. -/
def addPlayer (g : GState) (addr : String) : GState :=
  match findPlayer g.playerStates addr with
  | some _ =>
      let states := setPlayer g.playerStates addr (fun s => { s with isActive := true })
      { g with playerStates := states }
  | none =>
      let newcomer : PlayerState :=
        { listenAddr := addr, rotationID := 0, isReady := false,
          isActive := true, isFolded := false, currentRoundBet := 0,
          isAllIn := false, stack := 1000, totalBetThisHand := 0 }
      { g with playerStates := g.playerStates ++ [(addr, newcomer)] }

/-- `SetPlayerReady`: assign the next rotation id on the first ready signal,
then start a hand when at least two players are ready and the table is
waiting. -/
def setPlayerReady (g : GState) (addr : String) : GState × Option String :=
  match findPlayer g.playerStates addr with
  | none => (g, some "player not found")
  | some st =>
    let g1 :=
      if ¬ st.isReady then
        let states := setPlayer g.playerStates addr
          (fun s => { s with rotationID := g.nextRotationID, isReady := true })
        { g with
          playerStates := states,
          rotationMap := g.rotationMap ++ [(g.nextRotationID, addr)],
          nextRotationID := g.nextRotationID + 1 }
      else g
    let g2 :=
      if (getReadyPlayers g1).length ≥ 2 ∧ g1.currentStatus = .waiting then
        startNewHand g1
      else g1
    (g2, none)

/-! ## Disconnect penalty pathway (`DisconnectHandler`)

`handleAbandon` / `abortGameWithPenalty` operate on a `Player` record with
`ID`, `Status`, `BuyIn` and `Stack` fields and on a game with a `Players`
collection, a `Status` and an optional `BlockchainClient`.  The declarations
of `Player`, `PlayerActive` / `PlayerAbandoned` and `GameAborted` are not in
the repository (a code-evolution artifact); they are reconstructed here
directly from their uses in the two functions.  The call to
`EndGameWithPenalty` is recorded in a flag, since only its invocation — not
its blockchain effect — is part of the modelled state. -/

/-- Status values used by the disconnect handler. -/
inductive DPlayerStatus where
  | active
  | abandoned
deriving DecidableEq, Repr

/-- The `Player` record as used by the penalty pathway. -/
structure DPlayer where
  id : String
  status : DPlayerStatus
  buyIn : Int
  stack : Int
deriving DecidableEq, Repr

/-- Game status values used by the penalty pathway. -/
inductive DGameStatus where
  | running
  | aborted
deriving DecidableEq, Repr

/-- The game fields used by the penalty pathway. -/
structure DGame where
  players : List DPlayer
  status : DGameStatus
  blockchainClient : Bool
  endWithPenaltyCalled : Bool
deriving DecidableEq, Repr

/-- `Game.GetPlayer` for this model: first player with the given id. -/
def dGetPlayer (g : DGame) (pid : String) : Option DPlayer :=
  g.players.find? (fun p => p.id = pid)

/-- `abortGameWithPenalty`: split the abandoned player's buy-in among the
remaining `PlayerActive` players (integer share, remainder to the first of
them in list order), *setting* each of their stacks to buy-in plus share,
zeroing the abandoned player's stack, marking the game aborted, and invoking
`EndGameWithPenalty` when a blockchain client is configured. -/
def abortGameWithPenalty (g : DGame) (abandonedPlayerID : String) :
    DGame × Option String :=
  match dGetPlayer g abandonedPlayerID with
  | none => (g, some "player not found")
  | some abandonedPlayer =>
    let isRemaining := fun (p : DPlayer) =>
      p.id ≠ abandonedPlayerID ∧ p.status = .active
    let remainingPlayers := g.players.filter (fun p => decide (isRemaining p))
    if remainingPlayers.length = 0 then
      (g, some "no remaining players to distribute penalty")
    else
      let penaltyPerPlayer :=
        Int.tdiv abandonedPlayer.buyIn (remainingPlayers.length : Int)
      let remainder :=
        Int.tmod abandonedPlayer.buyIn (remainingPlayers.length : Int)
      let firstRemaining := (remainingPlayers.head?).map (·.id)
      let players1 := g.players.map (fun p =>
        if isRemaining p then
          { p with stack := p.buyIn + penaltyPerPlayer +
              (if firstRemaining = some p.id then remainder else 0) }
        else p)
      let players2 := players1.map (fun p =>
        if p.id = abandonedPlayerID then { p with stack := 0 } else p)
      let g1 := { g with players := players2, status := .aborted }
      if g1.blockchainClient then
        ({ g1 with endWithPenaltyCalled := true }, none)
      else (g1, none)

/-- `handleAbandon`: mark the player abandoned, then abort with penalty. -/
def handleAbandon (g : DGame) (playerID : String) : DGame × Option String :=
  match dGetPlayer g playerID with
  | none => (g, some "player not found")
  | some _ =>
    let players1 := g.players.map (fun p =>
      if p.id = playerID then { p with status := .abandoned } else p)
    abortGameWithPenalty { g with players := players1 } playerID

/-! ## Concrete fixtures

States and traces used by the concrete theorems below. -/

/-- Heads-up abandonment scenario of the spec (§8 scenario 4): pot 60
mid-hand, P0 stack 940, P1 stack 970, both bought in for 1000; P1 times
out.  A blockchain client is configured. -/
def gPenalty : DGame :=
  { players := [ { id := "P0", status := .active, buyIn := 1000, stack := 940 },
                 { id := "P1", status := .active, buyIn := 1000, stack := 970 } ],
    status := .running, blockchainClient := true, endWithPenaltyCalled := false }

/-- A mid-hand state used against C4: it is seat 0's turn, the highest bet
is 20 with a pending 20 minimum raise, and the acting player has stack 30
with 20 already in this round. -/
def gRaise : GState :=
  { playerStates :=
      [ ("p0",
         { listenAddr := "p0", rotationID := 0, isReady := true, isActive := true,
           isFolded := false, currentRoundBet := 20, isAllIn := false,
           stack := 30, totalBetThisHand := 20 }),
        ("p1",
         { listenAddr := "p1", rotationID := 1, isReady := true, isActive := true,
           isFolded := false, currentRoundBet := 20, isAllIn := false,
           stack := 100, totalBetThisHand := 20 }) ],
    rotationMap := [(0, "p0"), (1, "p1")], nextRotationID := 2,
    currentDealerID := 1, currentPlayerTurn := 0, currentStatus := .preFlop,
    currentPot := 40, highestBet := 20, lastRaiserID := 1,
    lastRaiseAmount := 20, communityCards := [] }

/-- The folded active contributor of the C3 scenario. -/
def pSideA : PlayerState :=
  { listenAddr := "a", rotationID := 0, isReady := true, isActive := true,
    isFolded := true, currentRoundBet := 0, isAllIn := false,
    stack := 950, totalBetThisHand := 50 }

/-- The all-in contributor of the C3 scenario. -/
def pSideB : PlayerState :=
  { listenAddr := "b", rotationID := 1, isReady := true, isActive := true,
    isFolded := false, currentRoundBet := 0, isAllIn := true,
    stack := 0, totalBetThisHand := 100 }

/-- A state with one all-in player used against C3: "a" is active but
folded after contributing 50; "b" is active, all-in, contributed 100. -/
def gSide : GState :=
  { playerStates := [("a", pSideA), ("b", pSideB)],
    rotationMap := [(0, "a"), (1, "b")], nextRotationID := 2,
    currentDealerID := 0, currentPlayerTurn := 1, currentStatus := .flop,
    currentPot := 150, highestBet := 0, lastRaiserID := 1,
    lastRaiseAmount := 20, communityCards := [] }

/-- The state reached from a fresh game by: `AddPlayer "a"`,
`AddPlayer "b"`, `SetPlayerReady "a"`, `SetPlayerReady "b"` (which starts
the hand, advances the dealer to seat 1 and posts the blinds), then player
"b" — the small blind, whose turn it is — folds. -/
def gFoldTrace : GState :=
  (handlePlayerAction
    ((setPlayerReady
      ((setPlayerReady (addPlayer (addPlayer newGame "a") "b") "a").1) "b").1)
    "b" "fold" 0).1

/-- A one-player game used as the C10 witness: "w" is present with an
inactive seat, a diminished stack of 555 and some hand state. -/
def gRejoin : GState :=
  { playerStates :=
      [ ("w",
         { listenAddr := "w", rotationID := 3, isReady := true, isActive := false,
           isFolded := true, currentRoundBet := 7, isAllIn := true,
           stack := 555, totalBetThisHand := 12 }) ],
    rotationMap := [(3, "w")], nextRotationID := 4,
    currentDealerID := 3, currentPlayerTurn := 3, currentStatus := .waiting,
    currentPot := 0, highestBet := 0, lastRaiserID := 3,
    lastRaiseAmount := 20, communityCards := [] }

/-- The total amount held by a list of side pots. -/
def potsSum (pots : List SidePot) : Int :=
  (pots.map SidePot.amount).sum

/-- The total `TotalBetThisHand` of the players `calculateSidePots` collects:
active with a positive contribution (folded or not). -/
def activeContribSum (g : GState) : Int :=
  ((g.playerStates.filter
      (fun p => p.2.isActive && decide (p.2.totalBetThisHand > 0))).map
    (fun p => p.2.totalBetThisHand)).sum

/-! ## Supporting lemmas -/

instance : IsTotal (String × Int) byAmount :=
  ⟨fun a b => le_total a.2 b.2⟩

instance : IsTrans (String × Int) byAmount :=
  ⟨fun _ _ _ hab hbc => le_trans hab hbc⟩

theorem natOfBytes_append_singleton (l : List Nat) (b : Nat) :
    natOfBytes (l ++ [b]) = natOfBytes l * 256 + b := by
  simp [natOfBytes, List.foldl_append]

theorem natOfBytes_bytesOfNat (n : Nat) : natOfBytes (bytesOfNat n) = n := by
  induction n using Nat.strong_induction_on with
  | _ n ih =>
    rw [bytesOfNat]
    split
    · simp [natOfBytes]; omega
    · rename_i hn
      rw [natOfBytes_append_singleton,
        ih (n / 256) (Nat.div_lt_self (Nat.pos_of_ne_zero hn) (by omega)),
        Nat.mul_comm, Nat.div_add_mod]

theorem bytesOfNat_zero : bytesOfNat 0 = [] := by
  rw [bytesOfNat]; simp

theorem getD_cons_set_perm (xs : List (List Nat)) (m : Nat) (x : List Nat)
    (hm : m < xs.length) :
    ((xs.getD m []) :: xs.set m x).Perm (x :: xs) := by
  induction xs generalizing m with
  | nil => simp at hm
  | cons y ys ih =>
    cases m with
    | zero => simpa using List.Perm.swap x y ys
    | succ m =>
      have hm' : m < ys.length := by simpa using hm
      have h1 : ((ys.getD m []) :: y :: ys.set m x).Perm (y :: (ys.getD m []) :: ys.set m x) :=
        List.Perm.swap _ _ _
      have h2 : (y :: (ys.getD m []) :: ys.set m x).Perm (y :: x :: ys) :=
        (ih m hm').cons y
      have h3 : (y :: x :: ys).Perm (x :: y :: ys) := List.Perm.swap _ _ _
      simpa using (h1.trans h2).trans h3

theorem set_swap_perm (l : List (List Nat)) (i j : Nat) (hj : j < l.length)
    (hij : i < j) :
    ((l.set i (l.getD j [])).set j (l.getD i [])).Perm l := by
  induction l generalizing i j with
  | nil => simp at hj
  | cons x xs ih =>
    cases i with
    | zero =>
      obtain ⟨m, rfl⟩ : ∃ m, j = m + 1 := ⟨j - 1, by omega⟩
      have hm : m < xs.length := by simpa using hj
      simpa using getD_cons_set_perm xs m x hm
    | succ a =>
      obtain ⟨b, rfl⟩ : ∃ b, j = b + 1 := ⟨j - 1, by omega⟩
      have hb : b < xs.length := by simpa using hj
      simpa using (ih a b hb (by omega)).cons x

theorem set_getD_self (l : List (List Nat)) (i : Nat) :
    l.set i (l.getD i []) = l := by
  induction l generalizing i with
  | nil => rfl
  | cons x xs ih =>
    cases i with
    | zero => rfl
    | succ m => simpa using ih m

theorem listSwap_perm (l : List (List Nat)) (i j : Nat) :
    (listSwap l i j).Perm l := by
  unfold listSwap
  split
  · rename_i h
    obtain ⟨hi, hj⟩ := h
    rcases Nat.lt_trichotomy i j with hij | rfl | hji
    · exact set_swap_perm l i j hj hij
    · rw [set_getD_self, set_getD_self]
    · rw [List.set_comm _ _ _ (by omega)]
      have : ((l.set j (l.getD i [])).set i (l.getD j [])).Perm l :=
        set_swap_perm l j i hi hji
      exact this
  · exact List.Perm.refl _

theorem shuffleAux_perm (draws : Nat → Option Nat) (is : List Nat)
    (d : List (List Nat)) : (shuffleAux draws is d).Perm d := by
  induction is generalizing d with
  | nil => exact List.Perm.refl _
  | cons i rest ih =>
    unfold shuffleAux
    cases draws i with
    | none => exact ih d
    | some j => exact (ih _).trans (listSwap_perm d i j)

theorem findPlayer_setPlayer (l : List (String × PlayerState)) (k : String)
    (f : PlayerState → PlayerState) :
    findPlayer (setPlayer l k f) k = (findPlayer l k).map f := by
  induction l with
  | nil => rfl
  | cons p rest ih =>
    simp only [setPlayer, List.map_cons] at ih ⊢
    by_cases h : p.1 = k
    · simp [findPlayer, h]
    · simp [findPlayer, h, ih]

theorem findPlayer_setPlayer_ne (l : List (String × PlayerState)) (k a : String)
    (f : PlayerState → PlayerState) (h : a ≠ k) :
    findPlayer (setPlayer l k f) a = findPlayer l a := by
  induction l with
  | nil => rfl
  | cons p rest ih =>
    simp only [setPlayer, List.map_cons] at ih ⊢
    have hka : ¬ k = a := fun hc => h hc.symm
    by_cases hp : p.1 = k
    · have hpa : ¬ p.1 = a := by rw [hp]; exact hka
      simp [findPlayer, hp, hpa, hka, ih]
    · by_cases hpa : p.1 = a
      · simp [findPlayer, hp, hpa, h]
      · simp [findPlayer, hp, hpa, ih]

/-! ## Claim theorems -/

/-- **C1.**  The claim states that the key returned by `EvaluateBestHand`
respects the official Hold'em ordering, with a dominating hand receiving a
strictly smaller key.  The code violates this: `evaluateFiveCardHand` gives
*larger* keys to stronger categories (a royal flush gets `9000014`), while
`EvaluateBestHand` keeps the *minimum* key over all 5-card subsets starting
from `999999` — so the royal-flush hand is reported as `(999999, "High
Card")` and compares as *worse* (larger) than the queen-high hand's
`219830`.  This theorem evaluates the code at the failing input. -/
theorem c1_holdem_ordering_violated :
    evaluateFiveCardHand
        [⟨.hearts, 14⟩, ⟨.hearts, 13⟩, ⟨.hearts, 12⟩, ⟨.hearts, 11⟩, ⟨.hearts, 10⟩] =
      (9000014, "Royal Flush")
    ∧ EvaluateBestHand [⟨.hearts, 14⟩, ⟨.hearts, 13⟩]
        [⟨.hearts, 12⟩, ⟨.hearts, 11⟩, ⟨.hearts, 10⟩] = (999999, "High Card")
    ∧ EvaluateBestHand [⟨.spades, 3⟩, ⟨.diamonds, 2⟩]
        [⟨.hearts, 12⟩, ⟨.hearts, 11⟩, ⟨.hearts, 10⟩] = (219830, "High Card")
    ∧ ¬ (EvaluateBestHand [⟨.hearts, 14⟩, ⟨.hearts, 13⟩]
          [⟨.hearts, 12⟩, ⟨.hearts, 11⟩, ⟨.hearts, 10⟩]).1 <
        (EvaluateBestHand [⟨.spades, 3⟩, ⟨.diamonds, 2⟩]
          [⟨.hearts, 12⟩, ⟨.hearts, 11⟩, ⟨.hearts, 10⟩]).1 := by
  refine ⟨by decide, by decide, by decide, by decide⟩

/-- **C7.**  The claim states that on hole cards `(A♠, 2♦)` with community
`(3♣ 4♥ 5♠ 9♦ K♣)` the evaluator returns the key of the 5-high wheel
straight.  The wheel subset does evaluate to the straight key `4000005`,
but `EvaluateBestHand` minimises keys while keys grow with hand strength,
so it returns the *worst* subset `{9,5,4,3,2}` as `(139832, "High Card")`
instead.  This theorem evaluates the code at the failing input. -/
theorem c7_wheel_straight_not_returned :
    EvaluateBestHand [⟨.spades, 14⟩, ⟨.diamonds, 2⟩]
        [⟨.clubs, 3⟩, ⟨.hearts, 4⟩, ⟨.spades, 5⟩, ⟨.diamonds, 9⟩, ⟨.clubs, 13⟩] =
      (139832, "High Card")
    ∧ evaluateFiveCardHand
        [⟨.spades, 14⟩, ⟨.diamonds, 2⟩, ⟨.clubs, 3⟩, ⟨.hearts, 4⟩, ⟨.spades, 5⟩] =
      (4000005, "Straight")
    ∧ (139832 : Nat) ≠ 4000005 := by
  refine ⟨by decide, by decide, by decide⟩

/-- **C5.**  For every keypair over a prime `p` with `e·d ≡ 1 (mod p−1)`
and every plaintext value `m ∈ [1, p−1]`, decrypting the encryption of `m`
recovers `m`: `(m^e mod p)^d mod p = m`.  Fermat–Euler on the multiplier
`m^(p−1) ≡ 1 (mod p)` closes the round trip. -/
theorem c5_cipher_roundtrip (ck : CardKeys) (hp : ck.prime.Prime)
    (hvalid : ck.validPair) (m : Nat) (hm1 : 1 ≤ m) (hm2 : m ≤ ck.prime - 1) :
    ck.decryptNat (ck.encryptNat m) = m := by
  obtain ⟨e, d, p⟩ := ck
  unfold CardKeys.validPair at hvalid
  unfold CardKeys.encryptNat CardKeys.decryptNat
  simp only at hvalid hm2 ⊢
  have hp2 : 2 ≤ p := hp.two_le
  have hmlt : m < p := by omega
  have hnd : ¬ p ∣ m := Nat.not_dvd_of_pos_of_lt (by omega) hmlt
  have hcop : Nat.Coprime m p := ((Nat.Prime.coprime_iff_not_dvd hp).mpr hnd).symm
  have hferm : m ^ (p - 1) ≡ 1 [MOD p] := by
    have := Nat.ModEq.pow_totient hcop
    rwa [Nat.totient_prime hp] at this
  have hed : e * d = (p - 1) * (e * d / (p - 1)) + 1 := by
    conv_lhs => rw [← Nat.div_add_mod (e * d) (p - 1)]
    rw [hvalid]
  have hpowmod : (m ^ e % p) ^ d % p = m ^ (e * d) % p := by
    rw [← Nat.pow_mod, ← pow_mul]
  rw [hpowmod]
  have hmodeq : m ^ (e * d) ≡ m [MOD p] := by
    calc m ^ (e * d) = (m ^ (p - 1)) ^ (e * d / (p - 1)) * m := by
          rw [← pow_mul, ← pow_succ, ← hed]
      _ ≡ 1 ^ (e * d / (p - 1)) * m [MOD p] :=
          Nat.ModEq.mul ((hferm.pow _)) (Nat.ModEq.refl m)
      _ = m := by rw [one_pow, one_mul]
  calc m ^ (e * d) % p = m % p := hmodeq
    _ = m := Nat.mod_eq_of_lt hmlt

/-- Witness for `c5_cipher_roundtrip`: the keypair `(e,d,p) = (3,3,5)` is
valid and decrypt∘encrypt recovers `m = 2`. -/
theorem c5_cipher_roundtrip_witness :
    Nat.Prime (CardKeys.mk 3 3 5).prime ∧ (CardKeys.mk 3 3 5).validPair ∧
      1 ≤ 2 ∧ 2 ≤ (CardKeys.mk 3 3 5).prime - 1 ∧
      (CardKeys.mk 3 3 5).decryptNat ((CardKeys.mk 3 3 5).encryptNat 2) = 2 :=
  ⟨by norm_num, by decide, by decide, by decide,
    c5_cipher_roundtrip ⟨3, 3, 5⟩ (by norm_num) (by decide) 2 (by decide) (by decide)⟩

/-- **C8.**  The card byte `0` encodes the 2♥ (`ToBytes` gives the single
zero byte); its integer value is `0`, `0^e mod p = 0` for every exponent
`e ≥ 1`, and a zero `big.Int` serialises to the empty byte slice — so the
cipher round-trip returns `[]` instead of `[0x00]` for exactly this card. -/
theorem c8_zero_byte_roundtrip_fails (ck : CardKeys) (he : 0 < ck.encKey)
    (hd : 0 < ck.decKey) :
    Card.toBytes ⟨.hearts, 2⟩ = [0]
    ∧ ck.encrypt [0] = []
    ∧ ck.decrypt (ck.encrypt [0]) = []
    ∧ ck.decrypt (ck.encrypt [0]) ≠ [0] := by
  have henc : ck.encrypt [0] = [] := by
    unfold CardKeys.encrypt CardKeys.encryptNat
    have h0 : natOfBytes [0] = 0 := by decide
    rw [h0, Nat.zero_pow he, Nat.zero_mod, bytesOfNat_zero]
  have hdec : ck.decrypt [] = [] := by
    unfold CardKeys.decrypt CardKeys.decryptNat
    have h0 : natOfBytes [] = 0 := by decide
    rw [h0, Nat.zero_pow hd, Nat.zero_mod, bytesOfNat_zero]
  refine ⟨by decide, henc, by rw [henc, hdec], by rw [henc, hdec]; decide⟩

/-- Witness for `c8_zero_byte_roundtrip_fails` at the keypair `(3,3,5)`. -/
theorem c8_zero_byte_roundtrip_fails_witness :
    0 < (CardKeys.mk 3 3 5).encKey ∧ 0 < (CardKeys.mk 3 3 5).decKey ∧
      (CardKeys.mk 3 3 5).decrypt ((CardKeys.mk 3 3 5).encrypt [0]) = [] :=
  ⟨by decide, by decide,
    (c8_zero_byte_roundtrip_fails ⟨3, 3, 5⟩ (by decide) (by decide)).2.2.1⟩

/-- **C9.**  `ShuffleDeck` returns a permutation of its input (same length,
same multiset of payloads) for *every* sequence of random draws, including
draw failures (the skipped-swap branch) and out-of-range draws that
`rand.Int`'s contract excludes. -/
theorem c9_shuffle_is_permutation (deck : List (List Nat))
    (draws : Nat → Option Nat) :
    (ShuffleDeck deck draws).Perm deck ∧
      (ShuffleDeck deck draws).length = deck.length := by
  have h := shuffleAux_perm draws (downIndices deck.length) deck
  exact ⟨h, h.length_eq⟩

/-- **C10.**  `AddPlayer` on an address already present only sets that
player's `IsActive` flag: the stored record becomes the old record with
`isActive := true` (so the stack — here whatever `st.stack` was — is kept,
not reset to 1000), every other player's record is untouched, and every
non-`playerStates` field of the game is untouched. -/
theorem c10_addPlayer_rejoin_frame (g : GState) (addr : String)
    (st : PlayerState) (h : findPlayer g.playerStates addr = some st) :
    findPlayer (addPlayer g addr).playerStates addr =
      some { st with isActive := true }
    ∧ (∀ a, a ≠ addr →
        findPlayer (addPlayer g addr).playerStates a = findPlayer g.playerStates a)
    ∧ { addPlayer g addr with playerStates := g.playerStates } = g := by
  refine ⟨?_, ?_, ?_⟩
  · simp only [addPlayer, h]
    rw [findPlayer_setPlayer, h]
    rfl
  · intro a ha
    simp only [addPlayer, h]
    exact findPlayer_setPlayer_ne _ _ _ _ ha
  · simp [addPlayer, h]

/-- Witness for `c10_addPlayer_rejoin_frame`: the rejoining player "w"
keeps stack 555 and only flips `isActive`. -/
theorem c10_addPlayer_rejoin_frame_witness :
    findPlayer gRejoin.playerStates "w" =
      some
        { listenAddr := "w", rotationID := 3, isReady := true, isActive := false,
          isFolded := true, currentRoundBet := 7, isAllIn := true,
          stack := 555, totalBetThisHand := 12 }
    ∧ findPlayer (addPlayer gRejoin "w").playerStates "w" =
      some
        { listenAddr := "w", rotationID := 3, isReady := true, isActive := true,
          isFolded := true, currentRoundBet := 7, isAllIn := true,
          stack := 555, totalBetThisHand := 12 } :=
  ⟨by decide,
    (c10_addPlayer_rejoin_frame gRejoin "w"
      { listenAddr := "w", rotationID := 3, isReady := true, isActive := false,
        isFolded := true, currentRoundBet := 7, isAllIn := true,
        stack := 555, totalBetThisHand := 12 } (by decide)).1⟩

/-- Counterexample to **C2** as stated: in the spec's heads-up abandonment
scenario (P0 at stack 940, P1 at 970 with 30 contributed, both bought in
for 1000), the claim predicts final stacks P0 = 1940, P1 = 0.  The code
instead distributes P1's *buy-in* and *sets* P0's stack to
`BuyIn + penalty = 2000`, discarding P0's actual stack. -/
theorem c2_penalty_counterexample :
    (handleAbandon gPenalty "P1").1.players.map (fun p => (p.id, p.stack)) =
      [("P0", 2000), ("P1", 0)]
    ∧ ¬ (handleAbandon gPenalty "P1").1.players.map (fun p => (p.id, p.stack)) =
      [("P0", 1940), ("P1", 0)] := by
  refine ⟨by decide, by decide⟩

/-- **C2 (amended).**  When a grace timer fires, the penalty pathway
forfeits the abandoned player's *buy-in* (not their contributed bet plus
remaining stack): it splits the buy-in evenly among the remaining
`PlayerActive` players (remainder to the first of them in list order),
*sets* each remaining player's stack to their buy-in plus their share
(discarding the stack they actually had), zeroes the abandoned player's
stack, marks the game aborted, and invokes `end_with_penalty` exactly when
a blockchain client is configured.  In the heads-up scenario P0's final
stack is `buyIn(P0) + buyIn(P1)` — 2000, not 1940.  Stated here for a
heads-up table `[p0, p1]` with `p1` abandoning. -/
theorem c2_penalty_amended (g : DGame) (p0 p1 : DPlayer)
    (hps : g.players = [p0, p1]) (h0 : p0.status = .active)
    (hne : p0.id ≠ p1.id) :
    (handleAbandon g p1.id).1.players.map (fun p => (p.id, p.stack)) =
      [(p0.id, p0.buyIn + p1.buyIn), (p1.id, 0)]
    ∧ (handleAbandon g p1.id).1.status = .aborted
    ∧ (handleAbandon g p1.id).1.endWithPenaltyCalled =
        (g.blockchainClient || g.endWithPenaltyCalled)
    ∧ (handleAbandon g p1.id).2 = none := by
  obtain ⟨players, status, bc, ewp⟩ := g
  simp only at hps
  subst hps
  have hne' : ¬ p0.id = p1.id := hne
  simp only [handleAbandon, dGetPlayer, List.find?, abortGameWithPenalty,
    List.map_cons, List.map_nil, List.filter]
  simp [hne', h0, Int.tdiv_one, Int.tmod_one]
  cases bc <;> simp

/-- Witness for `c2_penalty_amended` at the spec's concrete scenario. -/
theorem c2_penalty_amended_witness :
    gPenalty.players =
      [ DPlayer.mk "P0" .active 1000 940, DPlayer.mk "P1" .active 1000 970 ]
    ∧ (DPlayer.mk "P0" DPlayerStatus.active 1000 940).status = .active
    ∧ "P0" ≠ "P1"
    ∧ (handleAbandon gPenalty "P1").1.players.map (fun p => (p.id, p.stack)) =
      [("P0", 2000), ("P1", 0)] := by
  refine ⟨by decide, by decide, by decide, ?_⟩
  have h := (c2_penalty_amended gPenalty
    (DPlayer.mk "P0" .active 1000 940) (DPlayer.mk "P1" .active 1000 970)
    (by decide) (by decide) (by decide)).1
  simpa using h

/-- Counterexample to **C4** as stated: in `gRaise` it is seat 0's turn
("p0", stack 30, current round bet 20) and `highest_bet = 20 > 0` with
`last_raise_amount = 20`.  A raise to `v = 40` satisfies the claim's
acceptance condition (`40 ≥ 20 + 20` and `40 ≤ 30 + 20`), yet
`HandlePlayerAction` rejects it — the code bounds `v` by `stack`, not
`stack + current_round_bet` — returning an error with the state
unchanged. -/
theorem c4_raise_counterexample :
    (handlePlayerAction gRaise "p0" "raise" 40).2.isSome = true
    ∧ (handlePlayerAction gRaise "p0" "raise" 40).1 = gRaise
    ∧ findPlayer gRaise.playerStates "p0" =
        some
          { listenAddr := "p0", rotationID := 0, isReady := true, isActive := true,
            isFolded := false, currentRoundBet := 20, isAllIn := false,
            stack := 30, totalBetThisHand := 20 }
    ∧ gRaise.currentPlayerTurn = 0
    ∧ gRaise.highestBet = 20
    ∧ gRaise.lastRaiseAmount = 20 := by
  refine ⟨by decide, by decide, by decide, by decide, by decide, by decide⟩

/-- Counterexample to **C6** as stated: `gFoldTrace` is reachable from a
fresh game through the claim's own vocabulary — two `AddPlayer`s, two
`SetPlayerReady`s (the second starts the hand and posts the blinds) and one
player action (the small blind "b" folds).  The fold ends the round and
`advanceToNextRound`'s `Dealing → PreFlop` transition does not reassign the
turn, so `current_turn` still holds seat 1 = "b", who is *folded*, while
"a" remains active, not folded and not all-in — so the all-in exemption
does not apply. -/
theorem c6_turn_counterexample :
    gFoldTrace.currentPlayerTurn = 1
    ∧ rotationLookup gFoldTrace 1 = some "b"
    ∧ (findPlayer gFoldTrace.playerStates "b").map (·.isFolded) = some true
    ∧ (findPlayer gFoldTrace.playerStates "a").map
        (fun s => s.isActive && !s.isFolded && !s.isAllIn) = some true
    ∧ gFoldTrace.currentStatus = .preFlop := by
  refine ⟨by decide, by decide, by decide, by decide, by decide⟩

/-- Counterexample to **C3** as stated: in `gSide` (player "b" is all-in),
`calculateSidePots` collects the contribution of the *folded* active player
"a" and lists "a" in the first pot's eligibility set, contradicting the
claim that pairs are collected only from non-folded contributors and that
no folded player appears in any pot's eligible set. -/
theorem c3_sidepots_counterexample :
    calculateSidePots gSide = [⟨100, 50, ["a", "b"]⟩, ⟨50, 100, ["b"]⟩]
    ∧ (findPlayer gSide.playerStates "a").map (·.isFolded) = some true
    ∧ (findPlayer gSide.playerStates "b").map (·.isAllIn) = some true := by
  refine ⟨by decide, by decide, by decide⟩

theorem sum_map_sub_shift (vals : List Int) (a b : Int) :
    (vals.map (· - b)).sum + vals.length * (b - a) = (vals.map (· - a)).sum := by
  induction vals with
  | nil => simp
  | cons v vs ih =>
    simp only [List.map_cons, List.sum_cons, List.length_cons]
    have hcast : ((vs.length + 1 : Nat) : Int) = (vs.length : Int) + 1 := by
      push_cast
      ring
    rw [hcast]
    linarith [ih]

theorem buildPots_sum (l : List (String × Int)) (prev : Int)
    (hs : List.Sorted byAmount l) :
    potsSum (buildPots prev l) = (l.map (fun x => max x.2 prev - prev)).sum := by
  induction l generalizing prev with
  | nil => simp [buildPots, potsSum]
  | cons c rest ih =>
    rw [List.sorted_cons] at hs
    obtain ⟨hrel, hrest⟩ := hs
    simp only [buildPots]
    by_cases hle : c.2 ≤ prev
    · rw [if_pos hle]
      simp only [List.map_cons, List.sum_cons]
      rw [max_eq_right hle, sub_self, zero_add]
      exact ih prev hrest
    · rw [if_neg hle]
      push_neg at hle
      have hpos : (c.2 - prev) * ((rest.length : Int) + 1) > 0 := by
        apply mul_pos (by linarith)
        positivity
      rw [if_pos hpos]
      simp only [List.cons_append, List.nil_append, potsSum, List.map_cons,
        List.sum_cons] at ih ⊢
      have hmax_rest_prev : rest.map (fun x => max x.2 prev - prev) =
          rest.map (fun x => x.2 - prev) := by
        apply List.map_congr_left
        intro x hx
        have := hrel x hx
        rw [max_eq_left (by unfold byAmount at this; linarith)]
      have hmax_rest_c : rest.map (fun x => max x.2 c.2 - c.2) =
          rest.map (fun x => x.2 - c.2) := by
        apply List.map_congr_left
        intro x hx
        have := hrel x hx
        rw [max_eq_left (by unfold byAmount at this; linarith)]
      have hihc := ih c.2 hrest
      rw [hmax_rest_c] at hihc
      rw [hmax_rest_prev, max_eq_left (le_of_lt hle), hihc]
      have hshift := sum_map_sub_shift (rest.map (fun x => x.2)) prev c.2
      simp only [List.map_map, Function.comp_def, List.length_map] at hshift
      linarith [hshift]

theorem buildPots_head_eligible (l : List (String × Int)) (prev : Int)
    (hall : ∀ x ∈ l, prev < x.2) (x : String × Int) (hx : x ∈ l) :
    ∃ pot ∈ buildPots prev l, x.1 ∈ pot.eligiblePlayers := by
  cases l with
  | nil => simp at hx
  | cons c rest =>
    have hc : prev < c.2 := hall c (by simp)
    simp only [buildPots]
    rw [if_neg (by omega)]
    have hpos : (c.2 - prev) * ((rest.length : Int) + 1) > 0 := by
      apply mul_pos (by linarith)
      positivity
    rw [if_pos hpos]
    refine ⟨⟨(c.2 - prev) * ((rest.length : Int) + 1), c.2,
      (c :: rest).map (·.1)⟩, by simp, ?_⟩
    simpa using List.mem_map_of_mem (·.1) hx

/-- **C3 (amended).**  `calculateSidePots` collects `(player,
total_bet_this_hand)` pairs from every *active* player with a positive
contribution — folded players are *not* filtered out — sorts them ascending
and builds one pot per distinct level.  The pot amounts always sum to the
total contributions of the collected (active) players, and every collected
contributor, folded or not, is eligible for at least one pot. -/
theorem c3_sidepots_amended (g : GState) (addr : String) (st : PlayerState)
    (hmem : (addr, st) ∈ g.playerStates) (hact : st.isActive = true)
    (hpos : 0 < st.totalBetThisHand) :
    potsSum (calculateSidePots g) = activeContribSum g
    ∧ ∃ pot ∈ calculateSidePots g, addr ∈ pot.eligiblePlayers := by
  classical
  set pred : String × PlayerState → Bool :=
    fun p => p.2.isActive && decide (p.2.totalBetThisHand > 0) with hpred
  set contributions : List (String × Int) :=
    (g.playerStates.filter pred).map (fun p => (p.1, p.2.totalBetThisHand))
    with hcontr
  set sorted := List.insertionSort byAmount contributions with hsorted
  have hperm : sorted.Perm contributions := List.perm_insertionSort _ _
  have hsortd : List.Sorted byAmount sorted := List.sorted_insertionSort _ _
  have hposall : ∀ x ∈ sorted, (0 : Int) < x.2 := by
    intro x hx
    have hx' : x ∈ contributions := hperm.mem_iff.mp hx
    rw [hcontr] at hx'
    obtain ⟨p, hp, hpx⟩ := List.mem_map.mp hx'
    have := List.of_mem_filter hp
    rw [hpred] at this
    simp only [Bool.and_eq_true, decide_eq_true_eq] at this
    rw [← hpx]
    exact this.2
  constructor
  · have hsum := buildPots_sum sorted 0 hsortd
    have hcalc : calculateSidePots g = buildPots 0 sorted := rfl
    rw [hcalc, hsum]
    have hmap : sorted.map (fun x => max x.2 0 - 0) = sorted.map (fun x => x.2) := by
      apply List.map_congr_left
      intro x hx
      rw [max_eq_left (le_of_lt (hposall x hx)), sub_zero]
    rw [hmap]
    have hsum2 : (sorted.map (fun x => x.2)).sum = (contributions.map (fun x => x.2)).sum :=
      (hperm.map _).sum_eq
    rw [hsum2, hcontr, activeContribSum, List.map_map]
    rfl
  · have hfil : (addr, st) ∈ g.playerStates.filter pred := by
      apply List.mem_filter_of_mem hmem
      rw [hpred]
      simp [hact, hpos]
    have hx : (addr, st.totalBetThisHand) ∈ contributions := by
      rw [hcontr]
      exact List.mem_map.mpr ⟨(addr, st), hfil, rfl⟩
    have hxs : (addr, st.totalBetThisHand) ∈ sorted := hperm.mem_iff.mpr hx
    have hcalc : calculateSidePots g = buildPots 0 sorted := rfl
    rw [hcalc]
    exact buildPots_head_eligible sorted 0 hposall _ hxs

/-- Witness for `c3_sidepots_amended` at the concrete all-in state `gSide`,
instantiated at the folded contributor "a". -/
theorem c3_sidepots_amended_witness :
    ("a", pSideA) ∈ gSide.playerStates
    ∧ pSideA.isActive = true
    ∧ 0 < pSideA.totalBetThisHand
    ∧ potsSum (calculateSidePots gSide) = activeContribSum gSide
    ∧ ∃ pot ∈ calculateSidePots gSide, "a" ∈ pot.eligiblePlayers := by
  refine ⟨by decide, by decide, by decide, ?_, ?_⟩
  · exact (c3_sidepots_amended gSide "a" pSideA (by decide) (by decide) (by decide)).1
  · exact (c3_sidepots_amended gSide "a" pSideA (by decide) (by decide) (by decide)).2

theorem incNextPlayerAux_turn (g : GState) :
    ∀ (fuel startID : Nat),
      incNextPlayerAux g startID fuel = g ∨
      ∃ id addr st,
        incNextPlayerAux g startID fuel = { g with currentPlayerTurn := id }
        ∧ rotationLookup g id = some addr
        ∧ findPlayer g.playerStates addr = some st
        ∧ st.isActive = true ∧ st.isFolded = false ∧ st.isAllIn = false := by
  intro fuel
  induction fuel with
  | zero => intro startID; left; rfl
  | succ n ih =>
    intro startID
    rw [incNextPlayerAux]
    rcases hrot : rotationLookup g (getNextPlayerID g startID) with _ | addr
    · simpa [hrot] using ih (getNextPlayerID g startID)
    · rcases hfp : findPlayer g.playerStates addr with _ | st
      · simpa [hrot, hfp] using ih (getNextPlayerID g startID)
      · by_cases hok : (st.isActive && !st.isFolded && !st.isAllIn) = true
        · right
          obtain ⟨ha, hf, hai⟩ : st.isActive = true ∧ st.isFolded = false
              ∧ st.isAllIn = false := by
            simp only [Bool.and_eq_true, Bool.not_eq_true'] at hok
            exact ⟨hok.1.1, hok.1.2, hok.2⟩
          exact ⟨getNextPlayerID g startID, addr, st,
            by simp [hrot, hfp, hok], hrot, hfp, ha, hf, hai⟩
        · simpa [hrot, hfp, hok] using ih (getNextPlayerID g startID)

theorem getNextActivePlayerIDAux_spec (g : GState) (currentID : Nat) :
    ∀ (fuel startID : Nat),
      getNextActivePlayerIDAux g currentID startID fuel = currentID ∨
      ∃ addr st,
        rotationLookup g (getNextActivePlayerIDAux g currentID startID fuel) =
          some addr
        ∧ findPlayer g.playerStates addr = some st
        ∧ st.isActive = true ∧ st.isFolded = false := by
  intro fuel
  induction fuel with
  | zero => intro startID; left; rfl
  | succ n ih =>
    intro startID
    rw [getNextActivePlayerIDAux]
    rcases hrot : rotationLookup g (getNextPlayerID g startID) with _ | addr
    · by_cases hstop : getNextPlayerID g startID = currentID
      · simp [hrot, hstop]
      · simpa [hrot, hstop] using ih (getNextPlayerID g startID)
    · rcases hfp : findPlayer g.playerStates addr with _ | st
      · by_cases hstop : getNextPlayerID g startID = currentID
        · simp [hrot, hfp, hstop]
        · simpa [hrot, hfp, hstop] using ih (getNextPlayerID g startID)
      · by_cases hok : (st.isActive && !st.isFolded) = true
        · right
          obtain ⟨ha, hf⟩ : st.isActive = true ∧ st.isFolded = false := by
            simp only [Bool.and_eq_true, Bool.not_eq_true'] at hok
            exact hok
          exact ⟨addr, st, by simp [hrot, hfp, hok], by simp [hrot, hfp, hok, hfp], ha, hf⟩
        · by_cases hstop : getNextPlayerID g startID = currentID
          · simp [hrot, hfp, hok, hstop]
          · simpa [hrot, hfp, hok, hstop] using ih (getNextPlayerID g startID)

/-- **C6 (amended).**  Turn legality holds for turn advancement *within* a
betting round: `incNextPlayer` either leaves the state unchanged or moves
`current_turn` to a seat whose player is active, not folded and not all-in.
Street advancement is weaker: the street dealers assign
`getNextActivePlayerID`, which either falls back to the dealer seat or
selects a seat whose player is active and not folded — but possibly
*all-in* (and the `Dealing → PreFlop` transition does not reassign the turn
at all, as the counterexample shows). -/
theorem c6_turn_amended (g : GState) :
    (incNextPlayer g = g ∨
      ∃ id addr st,
        incNextPlayer g = { g with currentPlayerTurn := id }
        ∧ rotationLookup g id = some addr
        ∧ findPlayer g.playerStates addr = some st
        ∧ st.isActive = true ∧ st.isFolded = false ∧ st.isAllIn = false)
    ∧ ((dealFlop g).currentPlayerTurn = g.currentDealerID ∨
      ∃ addr st,
        rotationLookup g ((dealFlop g).currentPlayerTurn) = some addr
        ∧ findPlayer g.playerStates addr = some st
        ∧ st.isActive = true ∧ st.isFolded = false) := by
  constructor
  · exact incNextPlayerAux_turn g (g.nextRotationID + 1) g.currentPlayerTurn
  · have h := getNextActivePlayerIDAux_spec g g.currentDealerID
      (g.nextRotationID + 1) g.currentDealerID
    rcases h with h | ⟨addr, st, hrot, hfp, ha, hf⟩
    · left
      simpa [dealFlop, getNextActivePlayerID] using h
    · right
      exact ⟨addr, st, by simpa [dealFlop, getNextActivePlayerID] using hrot,
        hfp, ha, hf⟩

theorem updatePlayerState_lastRaise (g : GState) (addr : String)
    (act : PlayerAction) (v : Int) :
    (updatePlayerState g addr act v).lastRaiseAmount = g.lastRaiseAmount := by
  rcases hfp : findPlayer g.playerStates addr with _ | st
  · simp [updatePlayerState, hfp]
  · cases act <;> simp only [updatePlayerState, hfp] <;> try rfl
    all_goals split <;> split <;> rfl

theorem incNextPlayer_lastRaise (g : GState) :
    (incNextPlayer g).lastRaiseAmount = g.lastRaiseAmount := by
  rcases incNextPlayerAux_turn g (g.nextRotationID + 1) g.currentPlayerTurn
    with h | ⟨id, addr, st, h, _⟩
  · rw [incNextPlayer, h]
  · rw [incNextPlayer, h]

theorem foldl_addStack_lastRaise (f : Nat × String → Int) :
    ∀ (l : List (Nat × String)) (acc : GState),
      (l.foldl (fun acc wi => addStack acc wi.2 (f wi)) acc).lastRaiseAmount =
        acc.lastRaiseAmount := by
  intro l
  induction l with
  | nil => intro acc; rfl
  | cons x xs ih =>
    intro acc
    rw [List.foldl_cons, ih]
    rfl

theorem distributePot_lastRaise (g : GState) (amount : Int)
    (winners : List String) :
    (distributePot g amount winners).lastRaiseAmount = g.lastRaiseAmount := by
  cases winners with
  | nil => rfl
  | cons w ws =>
    simp only [distributePot]
    exact foldl_addStack_lastRaise _ _ g

theorem resetHandState_lastRaise (g : GState) :
    (resetHandState g).lastRaiseAmount = BigBlind := rfl

theorem foldl_pots_lastRaise (hands : List (String × Nat)) :
    ∀ (pots : List SidePot) (acc : GState),
      (pots.foldl (fun acc pot =>
        let eligibleHands :=
          hands.filter (fun ph => pot.eligiblePlayers.contains ph.1)
        let winners := pickWinners eligibleHands
        if winners.length > 0 then distributePot acc pot.amount winners
        else acc) acc).lastRaiseAmount = acc.lastRaiseAmount := by
  intro pots
  induction pots with
  | nil => intro acc; rfl
  | cons p ps ih =>
    intro acc
    rw [List.foldl_cons, ih]
    dsimp only
    split
    · exact distributePot_lastRaise _ _ _
    · rfl

theorem resolveWinner_lastRaise (g : GState) :
    (resolveWinner g).lastRaiseAmount = g.lastRaiseAmount ∨
      (resolveWinner g).lastRaiseAmount = BigBlind := by
  rw [resolveWinner]
  split
  · right
    exact resetHandState_lastRaise _
  · dsimp only
    split
    · left
      exact foldl_pots_lastRaise _ _ g
    · split
      · left
        exact distributePot_lastRaise _ _ _
      · left
        rfl

theorem advanceToNextRound_lastRaise (g : GState) :
    (advanceToNextRound g).lastRaiseAmount = g.lastRaiseAmount ∨
      (advanceToNextRound g).lastRaiseAmount = BigBlind := by
  rw [advanceToNextRound]
  dsimp only
  split
  · left; rfl
  · left; rfl
  · left; rfl
  · left; rfl
  · exact resolveWinner_lastRaise _
  · right; exact resetHandState_lastRaise _
  · left; rfl

theorem advanceTurn_lastRaise (g : GState) :
    (advanceTurnAndCheckRoundEnd g).lastRaiseAmount = g.lastRaiseAmount ∨
      (advanceTurnAndCheckRoundEnd g).lastRaiseAmount = BigBlind := by
  rw [advanceTurnAndCheckRoundEnd]
  split
  · exact advanceToNextRound_lastRaise g
  · dsimp only
    split
    · rcases advanceToNextRound_lastRaise (incNextPlayer g) with h | h
      · left
        rw [h, incNextPlayer_lastRaise]
      · right
        exact h
    · left
      exact incNextPlayer_lastRaise g

theorem getValidActions_contains_raise (g : GState) (cid : String)
    (st : PlayerState) (hfind : findPlayer g.playerStates cid = some st)
    (hne0 : ¬ g.highestBet = 0) :
    (getValidActions g cid).contains .raise =
      decide (g.highestBet + g.lastRaiseAmount - st.currentRoundBet < st.stack) := by
  simp only [getValidActions, hfind]
  split_ifs <;> simp_all <;> omega

/-- **C4 (amended).**  With `highest_bet > 0` and the acting player on
turn, `HandlePlayerAction` accepts a raise to `v` iff the raise action is
offered (`stack > highest_bet + last_raise_amount − current_round_bet`)
and `highest_bet + last_raise_amount ≤ v` and `v ≤ stack` — the bound is
the bare stack, not `stack + current_round_bet`.  A rejected raise returns
an error with the game state unchanged, and an accepted raise records
`last_raise_amount = v − highest_bet` before the turn advances (a
hand-ending action may subsequently reset it to the big blind). -/
theorem c4_raise_amended (g : GState) (cid : String) (v : Int)
    (st : PlayerState) (hfind : findPlayer g.playerStates cid = some st)
    (hturn : st.rotationID = g.currentPlayerTurn) (hpos : 0 < g.highestBet) :
    ((handlePlayerAction g cid "raise" v).2 = none ↔
      (g.highestBet + g.lastRaiseAmount - st.currentRoundBet < st.stack
        ∧ g.highestBet + g.lastRaiseAmount ≤ v ∧ v ≤ st.stack))
    ∧ ((handlePlayerAction g cid "raise" v).2 ≠ none →
        (handlePlayerAction g cid "raise" v).1 = g)
    ∧ ((handlePlayerAction g cid "raise" v).2 = none →
        ((handlePlayerAction g cid "raise" v).1.lastRaiseAmount =
            v - g.highestBet
          ∨ (handlePlayerAction g cid "raise" v).1.lastRaiseAmount =
            BigBlind)) := by
  have hne0 : ¬ g.highestBet = 0 := by omega
  have hcont := getValidActions_contains_raise g cid st hfind hne0
  have hturn' : ¬ st.rotationID ≠ g.currentPlayerTurn := by simp [hturn]
  have hp : parsePlayerAction "raise" = some PlayerAction.raise := rfl
  by_cases hc : (getValidActions g cid).contains PlayerAction.raise
  · have hcm : PlayerAction.raise ∈ getValidActions g cid := by simpa using hc
    have hstk : g.highestBet + g.lastRaiseAmount - st.currentRoundBet < st.stack := by
      rw [hcont] at hc
      exact of_decide_eq_true hc
    by_cases h1 : v < g.highestBet + g.lastRaiseAmount
    · have hres : handlePlayerAction g cid "raise" v =
          (g, some "raise below minimum") := by
        simp [handlePlayerAction, hp, hfind, hturn', hcm, h1]
      rw [hres]
      exact ⟨by simp; omega, fun _ => rfl, by simp⟩
    · by_cases h2 : v > st.stack
      · have hres : handlePlayerAction g cid "raise" v =
            (g, some "raise exceeds stack") := by
          simp [handlePlayerAction, hp, hfind, hturn', hcm, h1, h2]
        rw [hres]
        exact ⟨by simp; omega, fun _ => rfl, by simp⟩
      · have hres : handlePlayerAction g cid "raise" v =
            (advanceTurnAndCheckRoundEnd
              (updatePlayerState { g with lastRaiseAmount := v - g.highestBet }
                cid .raise v), none) := by
          simp [handlePlayerAction, hp, hfind, hturn', hcm, h1, h2]
        rw [hres]
        refine ⟨by constructor <;> intro <;> first | omega | rfl,
          fun hne => absurd rfl hne, fun _ => ?_⟩
        have hupd : (updatePlayerState
            { g with lastRaiseAmount := v - g.highestBet } cid .raise
            v).lastRaiseAmount = v - g.highestBet :=
          updatePlayerState_lastRaise _ cid .raise v
        rcases advanceTurn_lastRaise (updatePlayerState
            { g with lastRaiseAmount := v - g.highestBet } cid .raise v)
          with h | h
        · left
          rw [h, hupd]
        · right
          exact h
  · have hcm : ¬ PlayerAction.raise ∈ getValidActions g cid := by
      intro hmem
      exact hc (by simpa using hmem)
    have hres : handlePlayerAction g cid "raise" v =
        (g, some "invalid action") := by
      simp [handlePlayerAction, hp, hfind, hturn', hcm]
    have hstk : ¬ (g.highestBet + g.lastRaiseAmount - st.currentRoundBet <
        st.stack) := by
      rw [hcont] at hc
      simpa using of_decide_eq_false (Bool.of_not_eq_true hc)
    rw [hres]
    exact ⟨by simp; omega, fun _ => rfl, by simp⟩

/-- Witness for `c4_raise_amended`: in `gRaise` the acting player "p0" is
on turn with `highest_bet = 20 > 0`; a raise to 45 — within the stack of 30
plus the 20 already posted, but above the bare stack — is rejected with the
state unchanged. -/
theorem c4_raise_amended_witness :
    findPlayer gRaise.playerStates "p0" =
      some
        { listenAddr := "p0", rotationID := 0, isReady := true, isActive := true,
          isFolded := false, currentRoundBet := 20, isAllIn := false,
          stack := 30, totalBetThisHand := 20 }
    ∧ (0 : Int) < gRaise.highestBet
    ∧ ((handlePlayerAction gRaise "p0" "raise" 45).2 = none ↔
        (gRaise.highestBet + gRaise.lastRaiseAmount - 20 < 30
          ∧ gRaise.highestBet + gRaise.lastRaiseAmount ≤ 45 ∧ (45 : Int) ≤ 30)) := by
  refine ⟨by decide, by decide, ?_⟩
  exact (c4_raise_amended gRaise "p0" 45
    { listenAddr := "p0", rotationID := 0, isReady := true, isActive := true,
      isFolded := false, currentRoundBet := 20, isAllIn := false,
      stack := 30, totalBetThisHand := 20 } (by decide) (by decide) (by decide)).1

end Poker

